import Mathlib

/-!
Verification of the ai-note-hub services (knowledge graph, AI embedding
search, task extraction, daily digest) against their natural-language
specification.  JavaScript strings are modelled as Lean `String` / `List Char`
(ASCII case folding, as in the source's regexes), JavaScript numbers as `ℚ`
(similarity scores) and `Int` (epoch milliseconds), nullable values as
`Option`, and thrown exceptions as `Except String`.  The one operation with no
exact rational counterpart, `Math.sqrt`, is passed in as a function parameter
`s : ℚ → ℚ`; theorems that depend on it assume exactness at the single value
where the code applies it.  `Date` parsing of `by/before/due` date strings is
implementation-defined in JavaScript and is likewise a parameter
`dp : String → Option Int`.
-/

/-- JavaScript whitespace (the ASCII part of the regex class `\s`, and of
`String.prototype.trim`). -/
def jsSpace (c : Char) : Bool :=
  c == ' ' || c == '\t' || c == '\n' || c == '\r' || c == '\x0b' || c == '\x0c'

/-- The regex word-character class `\w` = `[A-Za-z0-9_]`. -/
def isWordChar (c : Char) : Bool :=
  (('a' ≤ c && c ≤ 'z') || ('A' ≤ c && c ≤ 'Z') || ('0' ≤ c && c ≤ '9') || c == '_')

/-- ASCII lower-casing, the effect of `String.prototype.toLowerCase` on the
ASCII characters that the source's regexes and keys involve. -/
def jsLower (c : Char) : Char :=
  if 65 ≤ c.toNat ∧ c.toNat ≤ 90 then Char.ofNat (c.toNat + 32) else c

/-- Case-insensitive character comparison (regex flag `i`). -/
def ciEq (a b : Char) : Bool := jsLower a == jsLower b

/-- Case-insensitive literal prefix test. -/
def startsWithCI : List Char → List Char → Bool
  | [], _ => true
  | _ :: _, [] => false
  | p :: ps, c :: cs => ciEq p c && startsWithCI ps cs

/-- `String.prototype.trim` (ASCII whitespace model). -/
def jsTrim (cs : List Char) : List Char :=
  ((cs.dropWhile jsSpace).reverse.dropWhile jsSpace).reverse

/-- `trim` on packed strings. -/
def jsTrimS (s : String) : String := String.mk (jsTrim s.data)

/-- Lower-case a whole string (`String.prototype.toLowerCase`, ASCII model). -/
def lowerS (s : String) : String := String.mk (s.data.map jsLower)

/-- Split a character list into maximal runs of non-whitespace characters
(the non-empty results of `split(/\s+/)`; the empty fragments JavaScript can
produce at the ends are dropped by the length filters applied right after). -/
def splitWordsGo (cur : List Char) : List Char → List (List Char)
  | [] => if cur.isEmpty then [] else [cur.reverse]
  | c :: cs =>
    if jsSpace c then
      if cur.isEmpty then splitWordsGo [] cs else cur.reverse :: splitWordsGo [] cs
    else splitWordsGo (c :: cur) cs

def splitWords (cs : List Char) : List (List Char) := splitWordsGo [] cs

/-- Lower-case, then replace every character outside `[\w\s]` by a space
(the `replace(/[^\w\s]/g, ' ')` step of both tokenizers). -/
def normChar (c : Char) : Char :=
  let lc := jsLower c
  if isWordChar lc || jsSpace lc then lc else ' '

/-- Tokenization profile of `generateEmbedding` in `ai.js`: lower-case, strip
punctuation to spaces, split on whitespace, keep tokens of length > 2. -/
def embedTokens (text : String) : List String :=
  ((splitWords (text.data.map normChar)).map String.mk).filter (fun t => 2 < t.length)

/-- The word-frequency vector of `generateEmbedding` before normalization:
one entry per token among the first 100, holding that token's total count. -/
def rawEmbedding (text : String) : List ℚ :=
  let toks := embedTokens text
  (toks.take 100).map (fun t => ((toks.count t : ℕ) : ℚ))

/-- Sum of squares of a vector (the square of its Euclidean norm). -/
def sumSq (l : List ℚ) : ℚ := (l.map (fun x => x * x)).sum

/-- `generateEmbedding` from `ai.js`.  `s` stands for `Math.sqrt`; the code
computes `magnitude = s (sumSq raw)` and divides by it when positive. -/
def generateEmbedding (s : ℚ → ℚ) (text : String) : List ℚ :=
  let e := rawEmbedding text
  let m := s (sumSq e)
  if 0 < m then e.map (fun v => v / m) else e

/-! ### A stable descending sort keyed by a rational score

`Array.prototype.sort` with comparator `(a, b) => key b - key a` is a stable
descending sort; insertion before the first strictly smaller key realises
exactly that order. -/

def orderedInsertD (key : α → ℚ) (x : α) : List α → List α
  | [] => [x]
  | y :: ys => if key y ≤ key x then x :: y :: ys else y :: orderedInsertD key x ys

def sortByKeyDesc (key : α → ℚ) : List α → List α
  | [] => []
  | x :: xs => orderedInsertD key x (sortByKeyDesc key xs)

/-! ### Data model -/

/-- A note as the services see it: `embedding` is `none` when the field is
`undefined`/`null` (an empty array is a present, truthy value in JavaScript
and is therefore `some []`). -/
structure Note where
  id : Nat
  title : String
  content : String
  tags : List String
  embedding : Option (List ℚ)
deriving DecidableEq

def noteText (n : Note) : String := n.title ++ " " ++ n.content

/-- A relationship edge produced by `buildGraph`. -/
structure Edge where
  sourceNoteId : Nat
  targetNoteId : Nat
  strength : ℚ
  edgeType : String
deriving DecidableEq

/-- A search result of `semanticSearch`: the spread `{...note, similarity,
embedding}` — the note with its `embedding` field overwritten plus the
score. -/
structure ScoredNote where
  note : Note
  similarity : ℚ
deriving DecidableEq

/-- A topic cluster produced by `clusterByTopic`. -/
structure Cluster where
  id : Nat
  label : String
  notes : List Note
deriving DecidableEq

/-! ### `ai.js`: cosineSimilarity and semanticSearch -/

/-- Truncated dot product over the common prefix (`for i < minLength`). -/
def dotTrunc : List ℚ → List ℚ → ℚ
  | [], _ => 0
  | _, [] => 0
  | a :: as', b :: bs => a * b + dotTrunc as' bs

/-- `cosineSimilarity` from `ai.js`: `0` for a missing (`none`) or empty
vector, otherwise the dot product truncated to the shorter length. -/
def cosineSimilarity (v1 v2 : Option (List ℚ)) : ℚ :=
  match v1, v2 with
  | some a, some b => if a.isEmpty || b.isEmpty then 0 else dotTrunc a b
  | _, _ => 0

/-- Score one note against the query embedding: use the note's cached
embedding when present (truthy), else a fresh one from `title + ' ' + content`,
and attach both the similarity and that embedding to the result. -/
def scoreNote (s : ℚ → ℚ) (qe : List ℚ) (n : Note) : ScoredNote :=
  let ne := match n.embedding with
    | some e => e
    | none => generateEmbedding s (noteText n)
  { note := { n with embedding := some ne },
    similarity := cosineSimilarity (some qe) (some ne) }

/-- `semanticSearch` from `ai.js`: score every note, sort the scored list
descending by similarity (stable), and keep scores strictly above `0.1`. -/
def semanticSearch (s : ℚ → ℚ) (query : String) (notes : List Note) :
    List ScoredNote :=
  let qe := generateEmbedding s query
  let results := notes.map (scoreNote s qe)
  (sortByKeyDesc ScoredNote.similarity results).filter
    (fun r => (1 : ℚ) / 10 < r.similarity)

/-- `semanticSearch` as the specification words it: compute the query
fingerprint, score each note, keep exactly the results strictly above the
threshold (in input order), then order them descending by score with a stable
tie-break. -/
def semanticSearchSpec (s : ℚ → ℚ) (query : String) (notes : List Note) :
    List ScoredNote :=
  let qe := generateEmbedding s query
  sortByKeyDesc ScoredNote.similarity
    ((notes.map (scoreNote s qe)).filter (fun r => (1 : ℚ) / 10 < r.similarity))

/-! ### `knowledgeGraph.js` -/

/-- Keyword profile of `knowledgeGraph.extractKeywords`: lower-case, strip
punctuation, split on whitespace, keep words of length > 3 that are not stop
words. -/
def stopWords : List String :=
  ["the", "a", "an", "and", "or", "but", "in", "on", "at", "to", "for",
   "of", "with", "by", "from", "as", "is", "was", "are", "were", "been",
   "be", "have", "has", "had", "do", "does", "did", "will", "would", "could",
   "should", "may", "might", "can", "this", "that", "these", "those", "i",
   "you", "he", "she", "it", "we", "they", "what", "which", "who", "when",
   "where", "why", "how", "not", "no", "yes"]

def extractKeywords (text : String) : List String :=
  ((splitWords (text.data.map normChar)).map String.mk).filter
    (fun w => 3 < w.length && !(stopWords.contains w))

def keywordsOf (n : Note) : List String := extractKeywords (noteText n)

/-- `calculateTagSimilarity`: Dice coefficient on the tag sets, `0` when
either list is empty. -/
def calculateTagSimilarity (tags1 tags2 : List String) : ℚ :=
  if tags1.isEmpty || tags2.isEmpty then 0
  else
    (2 * ((tags1.toFinset ∩ tags2.toFinset).card : ℚ)) /
      ((tags1.toFinset.card : ℚ) + (tags2.toFinset.card : ℚ))

/-- `calculateKeywordSimilarity`: Jaccard index of the keyword sets, `0` when
the union is empty. -/
def calculateKeywordSimilarity (text1 text2 : String) : ℚ :=
  let s1 := (extractKeywords text1).toFinset
  let s2 := (extractKeywords text2).toFinset
  if (s1 ∪ s2).card = 0 then 0
  else ((s1 ∩ s2).card : ℚ) / ((s1 ∪ s2).card : ℚ)

/-- `calculateSimilarity`.  When both notes carry a (truthy) embedding the
source calls `aiService.cosineSimilarity`, a method the `aiService` object
does not export, so the call throws; otherwise the embedding term is `0` and
the blend `0.3·tag + 0.5·0 + 0.2·keyword` is returned. -/
def calculateSimilarity (note1 note2 : Note) : Except String ℚ :=
  let tagSim := calculateTagSimilarity note1.tags note2.tags
  match note1.embedding, note2.embedding with
  | some _, some _ => .error "TypeError: aiService.cosineSimilarity is not a function"
  | _, _ =>
    let kwSim := calculateKeywordSimilarity (noteText note1) (noteText note2)
    .ok (tagSim * (3 / 10) + 0 * (1 / 2) + kwSim * (1 / 5))

/-- The ordered pairs `(notes[i], notes[j])` for `i < j`, in the double-loop
order of `buildGraph`. -/
def pairSims : List Note → List (Note × Note)
  | [] => []
  | n :: rest => (rest.map (fun m => (n, m))) ++ pairSims rest

def buildGraphAux (threshold : ℚ) : List (Note × Note) → Except String (List Edge)
  | [] => .ok []
  | (a, b) :: rest => do
    let s ← calculateSimilarity a b
    let es ← buildGraphAux threshold rest
    return (if threshold ≤ s then
      { sourceNoteId := a.id, targetNoteId := b.id, strength := s,
        edgeType := "semantic" } :: es else es)

/-- `buildGraph`: one similarity test per unordered pair of distinct indices,
emitting an edge when the blend reaches the threshold. -/
def buildGraph (notes : List Note) (threshold : ℚ) : Except String (List Edge) :=
  buildGraphAux threshold (pairSims notes)

/-! ### `clusterByTopic` -/

/-- Keys of a JavaScript object in insertion order: first occurrences. -/
def uniqFirstGo (seen : List String) : List String → List String
  | [] => []
  | x :: xs =>
    if seen.contains x then uniqFirstGo seen xs else x :: uniqFirstGo (x :: seen) xs

def uniqFirst (l : List String) : List String := uniqFirstGo [] l

/-- The keyword lists of all notes, concatenated in note order (the
iteration order in which `keywordFreq` is populated). -/
def allKeywordsOf (notes : List Note) : List String :=
  (notes.map keywordsOf).flatten

/-- The top `numClusters` keywords by global frequency (stable descending
sort of the `(keyword, count)` entries). -/
def topKeywordsOf (notes : List Note) (numClusters : Nat) : List String :=
  ((sortByKeyDesc (fun e => ((e.2 : ℕ) : ℚ))
      ((uniqFirst (allKeywordsOf notes)).map
        (fun w => (w, (allKeywordsOf notes).count w)))).take numClusters).map Prod.fst

/-- The member notes of the cluster seeded by `kw`. -/
def seedClusterNotes (notes : List Note) (kw : String) : List Note :=
  notes.filter (fun n => (keywordsOf n).contains kw)

/-- The seeded clusters: for the `index`-th top keyword, the notes whose own
keyword list contains it, skipped when empty. -/
def seededClustersOf (notes : List Note) (numClusters : Nat) : List Cluster :=
  (topKeywordsOf notes numClusters).enum.filterMap (fun p =>
    if (seedClusterNotes notes p.2).isEmpty then none
    else some ⟨p.1, p.2, seedClusterNotes notes p.2⟩)

/-- The ids collected from all (nonempty) seeded clusters. -/
def assignedIdsOf (notes : List Note) (numClusters : Nat) : List Nat :=
  ((seededClustersOf notes numClusters).flatMap Cluster.notes).map Note.id

/-- The notes whose id belongs to no seeded cluster. -/
def unassignedOf (notes : List Note) (numClusters : Nat) : List Note :=
  notes.filter (fun n => !((assignedIdsOf notes numClusters).contains n.id))

/-- `clusterByTopic`: seeded clusters plus, when some note's id is assigned
to none of them, a final catch-all cluster labelled "Other". -/
def clusterByTopic (notes : List Note) (numClusters : Nat) : List Cluster :=
  seededClustersOf notes numClusters ++
    (if (unassignedOf notes numClusters).isEmpty then []
     else [⟨(seededClustersOf notes numClusters).length, "Other",
            unassignedOf notes numClusters⟩])

/-- An exact square root for the witness text: its raw vector is `[1,1,1,1]`
with sum of squares `4`. -/
def sqrtFour : ℚ → ℚ := fun q => if q = 4 then 2 else 0

/-! ### `taskExtractor.js` -/

/-- An extracted task. -/
structure TaskItem where
  title : String
  noteId : Option Nat
  completed : Bool
  priority : String
  dueDate : Option Int
  extractedFrom : String
deriving DecidableEq

/-- Result of `extractMetadata`. -/
structure TaskMeta where
  priority : String
  dueDate : Option Int
  cleanText : String
deriving DecidableEq

/-- `\b` to the left of a match: start of string or a non-word character. -/
def bdryBefore : Option Char → Bool
  | none => true
  | some c => !isWordChar c

/-- `\b` to the right of a match: end of string or a non-word character. -/
def boundaryAt : List Char → Bool
  | [] => true
  | c :: _ => !isWordChar c

/-- Scan for the leftmost match of a matcher that inspects the previous
character (for `\b`) and the remaining input, returning
`(position, length, payload)`. -/
def findPatGo (m : Option Char → List Char → Option (Nat × α)) (prev : Option Char)
    (i : Nat) : List Char → Option (Nat × Nat × α)
  | [] => (m prev []).map (fun p => (i, p.1, p.2))
  | c :: cs =>
    match m prev (c :: cs) with
    | some p => some (i, p.1, p.2)
    | none => findPatGo m (some c) (i + 1) cs

def findPat (m : Option Char → List Char → Option (Nat × α)) (cs : List Char) :
    Option (Nat × Nat × α) :=
  findPatGo m none 0 cs

/-- Remove the leftmost match (`String.prototype.replace` with a non-global
pattern and empty replacement). -/
def replaceFirst (m : Option Char → List Char → Option (Nat × α)) (cs : List Char) :
    List Char :=
  match findPat m cs with
  | some (p, l, _) => cs.take p ++ cs.drop (p + l)
  | none => cs

/-! Priority patterns (no word boundaries, global replacement). -/

def bangRun (cs : List Char) : Nat := (cs.takeWhile (fun c => c == '!')).length

/-- One alternative of `/!{3,}|urgent|critical|asap/i` at the current
position (`!{3,}` greedy, alternatives in order). -/
def mHigh (cs : List Char) : Option Nat :=
  if 3 ≤ bangRun cs then some (bangRun cs)
  else if startsWithCI "urgent".data cs then some 6
  else if startsWithCI "critical".data cs then some 8
  else if startsWithCI "asap".data cs then some 4
  else none

/-- `/!{2}|important/i` at the current position. -/
def mMed (cs : List Char) : Option Nat :=
  if startsWithCI "!!".data cs then some 2
  else if startsWithCI "important".data cs then some 9
  else none

/-- `/!|low priority|when possible/i` at the current position. -/
def mLow (cs : List Char) : Option Nat :=
  if startsWithCI "!".data cs then some 1
  else if startsWithCI "low priority".data cs then some 12
  else if startsWithCI "when possible".data cs then some 13
  else none

/-- `RegExp.prototype.test`: does the pattern match at some position? -/
def anyMatch (m : List Char → Option Nat) : List Char → Bool
  | [] => (m []).isSome
  | c :: cs => (m (c :: cs)).isSome || anyMatch m cs

/-- Global replacement by the empty string: at each position, skip a match
(advancing by one character on a zero-length match, as JavaScript does) or
keep the character. -/
def gRemove (m : List Char → Option Nat) : List Char → List Char
  | [] => []
  | c :: cs =>
    match m (c :: cs) with
    | some l =>
      if hl : l = 0 then c :: gRemove m cs else gRemove m ((c :: cs).drop l)
    | none => c :: gRemove m cs
termination_by l => l.length
decreasing_by
  all_goals simp only [List.length_cons, List.length_drop]
  all_goals omega

/-- The priority step of `extractMetadata`: test the high, medium and low
patterns in order; on the first hit remove all its matches and trim. -/
def priorityClean (cs : List Char) : String × List Char :=
  if anyMatch mHigh cs then ("high", jsTrim (gRemove mHigh cs))
  else if anyMatch mMed cs then ("medium", jsTrim (gRemove mMed cs))
  else if anyMatch mLow cs then ("low", jsTrim (gRemove mLow cs))
  else ("medium", cs)

/-! Due-date patterns. -/

/-- `/\b(today|tomorrow)\b/i`.  The payload is irrelevant: the code passes
the whole match array to a callback expecting a string, which throws. -/
def mTodayTomorrow : Option Char → List Char → Option (Nat × Unit) := fun prev cs =>
  if bdryBefore prev then
    if startsWithCI "today".data cs && boundaryAt (cs.drop 5) then some (5, ())
    else if startsWithCI "tomorrow".data cs && boundaryAt (cs.drop 8) then some (8, ())
    else none
  else none

/-- A case-insensitive literal enclosed in word boundaries. -/
def mLiteralWB (w : List Char) : Option Char → List Char → Option (Nat × Unit) :=
  fun prev cs =>
    if bdryBefore prev && startsWithCI w cs && boundaryAt (cs.drop w.length) then
      some (w.length, ())
    else none

def mNextWeek : Option Char → List Char → Option (Nat × Unit) :=
  mLiteralWB "next week".data

def mNextMonth : Option Char → List Char → Option (Nat × Unit) :=
  mLiteralWB "next month".data

def natOfDigits (ds : List Char) : Nat := ds.foldl (fun a c => a * 10 + (c.toNat - 48)) 0

/-- `/\bin (\d+) days?\b/i`: the optional `s` is taken greedily, falling back
to the form without it when the trailing boundary fails. -/
def mInDays : Option Char → List Char → Option (Nat × Nat) := fun prev cs =>
  if bdryBefore prev && startsWithCI "in ".data cs then
    let ds := (cs.drop 3).takeWhile Char.isDigit
    if ds.isEmpty then none
    else if startsWithCI " day".data (cs.drop (3 + ds.length)) then
      match cs.drop (3 + ds.length + 4) with
      | c :: rest =>
        if (c == 's' || c == 'S') && boundaryAt rest then
          some (3 + ds.length + 5, natOfDigits ds)
        else if !isWordChar c then some (3 + ds.length + 4, natOfDigits ds)
        else none
      | [] => some (3 + ds.length + 4, natOfDigits ds)
    else none
  else none

def isDateSep (c : Char) : Bool := c == '/' || c == '-'

/-- `[\/\-]\d{2,4}` with a trailing `\b`, year taken greedily. -/
def tryYearLen (rest : List Char) (k : Nat) : Option Nat :=
  if (rest.take k).length = k && (rest.take k).all Char.isDigit &&
      boundaryAt (rest.drop k) then some k else none

def tryYearOpt : List Char → Option Nat
  | [] => none
  | s :: rest =>
    if isDateSep s then
      (tryYearLen rest 4 <|> tryYearLen rest 3 <|> tryYearLen rest 2).map (fun k => 1 + k)
    else none

/-- Second `\d{1,2}` of the date group, then the optional year part (greedy)
or the bare trailing boundary. -/
def tryDateL2 (rest : List Char) (l2 : Nat) : Option Nat :=
  if (rest.take l2).length = l2 && (rest.take l2).all Char.isDigit then
    match tryYearOpt (rest.drop l2) with
    | some e => some (l2 + e)
    | none => if boundaryAt (rest.drop l2) then some l2 else none
  else none

def tryDateL1 (cs : List Char) (l1 : Nat) : Option Nat :=
  if (cs.take l1).length = l1 && (cs.take l1).all Char.isDigit then
    match cs.drop l1 with
    | s :: rest =>
      if isDateSep s then (tryDateL2 rest 2 <|> tryDateL2 rest 1).map (fun e => l1 + 1 + e)
      else none
    | [] => none
  else none

/-- `(\d{1,2}[\/\-]\d{1,2}(?:[\/\-]\d{2,4})?)\b`, digits greedy. -/
def matchDateGroup (cs : List Char) : Option Nat := tryDateL1 cs 2 <|> tryDateL1 cs 1

/-- `(?:by|before|due)\s+` then the date group; on failure of the tail the
next alternative keyword is tried, as the regex engine backtracks. -/
def tryByKws (cs : List Char) : List (List Char) → Option (Nat × List Char)
  | [] => none
  | kw :: kws =>
    if startsWithCI kw cs then
      let afterKw := cs.drop kw.length
      let ws := afterKw.takeWhile jsSpace
      let rest := afterKw.dropWhile jsSpace
      if ws.isEmpty then tryByKws cs kws
      else
        match matchDateGroup rest with
        | some gl => some (kw.length + ws.length + gl, rest.take gl)
        | none => tryByKws cs kws
    else tryByKws cs kws

/-- `/\b(?:by|before|due)\s+(date)\b/i`; the payload is the captured date
string handed to `new Date(...)`. -/
def mByDate : Option Char → List Char → Option (Nat × List Char) := fun prev cs =>
  if bdryBefore prev then tryByKws cs ["by".data, "before".data, "due".data] else none

def msPerDay : Int := 86400000

/-- `Date.prototype.toISOString` throws outside ±8.64e15 ms. -/
def maxDateMs : Int := 8640000000000000

/-- `Math.ceil` of an integer division with positive divisor. -/
def ceilDiv (a b : Int) : Int := -((-a).fdiv b)

/-- `replace(/[.!]+$/, '')`: drop a maximal trailing run of `.` and `!`. -/
def dropTrailingPunctAux (cs : List Char) : List Char :=
  (cs.reverse.dropWhile (fun c => c == '.' || c == '!')).reverse

/-- Set the due date `now + d · msPerDay` (throwing the `toISOString`
range error outside the representable range) with the already-replaced and
trimmed clean text. -/
def finishDate (now d : Int) (clean2 : List Char) (priority : String) :
    Except String TaskMeta :=
  let t := now + d * msPerDay
  if -maxDateMs ≤ t ∧ t ≤ maxDateMs then
    .ok ⟨priority, some t, String.mk (jsTrim (dropTrailingPunctAux clean2))⟩
  else .error "RangeError: Invalid time value"

/-- The date step of `extractMetadata`: the patterns are tried in order on
the original text; the first whose match yields a non-null day count sets the
due date and removes its first occurrence from the clean text.  The
`today|tomorrow` branch faithfully throws: the code calls
`match.toLowerCase()` on the match array, which has no such method. -/
def dateStep (dp : String → Option Int) (now : Int) (cs : List Char)
    (priority : String) (clean1 : List Char) : Except String TaskMeta :=
  match findPat mTodayTomorrow cs with
  | some _ => .error "TypeError: match.toLowerCase is not a function"
  | none =>
    match findPat mNextWeek cs with
    | some _ => finishDate now 7 (jsTrim (replaceFirst mNextWeek clean1)) priority
    | none =>
      match findPat mNextMonth cs with
      | some _ => finishDate now 30 (jsTrim (replaceFirst mNextMonth clean1)) priority
      | none =>
        match findPat mInDays cs with
        | some (_, _, d) =>
          finishDate now (Int.ofNat d) (jsTrim (replaceFirst mInDays clean1)) priority
        | none =>
          match findPat mByDate cs with
          | some (_, _, ds) =>
            match dp (String.mk ds) with
            | some dt =>
              finishDate now (ceilDiv (dt - now) msPerDay)
                (jsTrim (replaceFirst mByDate clean1)) priority
            | none => .error "RangeError: Invalid time value"
          | none => .ok ⟨priority, none, String.mk (jsTrim (dropTrailingPunctAux clean1))⟩

/-- `extractMetadata` from `taskExtractor.js`. -/
def extractMetadata (dp : String → Option Int) (now : Int) (text : List Char) :
    Except String TaskMeta :=
  dateStep dp now text (priorityClean text).1 (priorityClean text).2

/-! Task line patterns. -/

/-- `\s+` (or `[\s:]+`) followed by `(.+)$`: the separator run is maximal;
when nothing remains the greedy quantifier gives one character back to the
group, and `.` matches no line terminator. -/
def tailAfterRun (sep : Char → Bool) (rest : List Char) : Option (List Char) :=
  let run := rest.takeWhile sep
  let r2 := rest.dropWhile sep
  if run.isEmpty then none
  else if r2.isEmpty then
    match run.getLast? with
    | some lc => if 2 ≤ run.length && !(lc == '\r' || lc == '\n') then some [lc] else none
    | none => none
  else if r2.all (fun c => !(c == '\r' || c == '\n')) then some r2 else none

/-- `/^[\s-]*\[([x ])\]\s+(.+)$/i`: returns the bracket character and the
captured tail. -/
def matchCheckbox (cs : List Char) : Option (Char × List Char) :=
  match cs.dropWhile (fun c => jsSpace c || c == '-') with
  | '[' :: b :: ']' :: rest1 =>
    if b == 'x' || b == 'X' || b == ' ' then
      match tailAfterRun jsSpace rest1 with
      | some g => some (b, g)
      | none => none
    else none
  | _ => none

/-- Try keyword alternatives in order; when a keyword prefix matches but its
tail fails, backtrack to the next alternative.  Returns the keyword as it
appears in the input (the value of a capturing group) and the captured
tail. -/
def tryAlts (sep : Char → Bool) (cs : List Char) :
    List (List Char) → Option (List Char × List Char)
  | [] => none
  | kw :: kws =>
    if startsWithCI kw cs then
      match tailAfterRun sep (cs.drop kw.length) with
      | some g => some (cs.take kw.length, g)
      | none => tryAlts sep cs kws
    else tryAlts sep cs kws

def aposC : Char := Char.ofNat 39

def kwDontForgetTo : List Char := ("Don".data ++ [aposC]) ++ "t forget to".data

def wsColon (c : Char) : Bool := jsSpace c || c == ':'

/-- The four task patterns in order; the result is
`(match[1], match[match.length - 1])`: for the checkbox pattern the bracket
character and the tail, for the keyword patterns the tail twice, and for the
imperative-verb pattern the captured verb and the tail. -/
def firstPatternMatch (cs : List Char) : Option (String × String) :=
  match matchCheckbox cs with
  | some (b, g) => some (String.mk [b], String.mk g)
  | none =>
    match tryAlts wsColon (cs.dropWhile (fun c => jsSpace c || c == '-'))
        ["TODO".data, "TO-DO".data, "TASK".data] with
    | some (_, g) => some (String.mk g, String.mk g)
    | none =>
      match tryAlts jsSpace (cs.dropWhile (fun c => jsSpace c || c == '-'))
          ["Need to".data, "Must".data, "Should".data, "Will".data, "Have to".data,
           kwDontForgetTo] with
      | some (_, g) => some (String.mk g, String.mk g)
      | none =>
        match tryAlts jsSpace (cs.dropWhile (fun c => jsSpace c || c == '-'))
            ["Call".data, "Email".data, "Send".data, "Schedule".data, "Book".data,
             "Buy".data, "Fix".data, "Update".data, "Review".data, "Complete".data,
             "Finish".data, "Start".data, "Begin".data] with
        | some (v, g) => some (String.mk v, String.mk g)
        | none => none

/-- Build the task pushed for a matched line: trim the captured tail, require
length > 2, extract metadata (which may throw), and mark completion by the
strict comparison `match[1] === 'x'`. -/
def buildTask (dp : String → Option Int) (now : Int) (noteId : Option Nat)
    (trimmed : List Char) (g1 gl : String) : Except String (Option TaskItem) :=
  let taskText := jsTrimS gl
  if 2 < taskText.length then
    (extractMetadata dp now taskText.data).map (fun md =>
      some { title := md.cleanText, noteId := noteId, completed := g1 == "x",
             priority := md.priority, dueDate := md.dueDate,
             extractedFrom := String.mk trimmed })
  else .ok none

/-- One iteration of the line loop of `extractTasks`. -/
def lineTask (dp : String → Option Int) (now : Int) (noteId : Option Nat)
    (line : List Char) : Except String (Option TaskItem) :=
  let trimmed := jsTrim line
  if trimmed.length < 5 then .ok none
  else
    match firstPatternMatch trimmed with
    | none => .ok none
    | some (g1, gl) => buildTask dp now noteId trimmed g1 gl

def rawTasksAux (dp : String → Option Int) (now : Int) (noteId : Option Nat) :
    List (List Char) → Except String (List TaskItem)
  | [] => .ok []
  | l :: ls => do
    let t0 ← lineTask dp now noteId l
    let rest ← rawTasksAux dp now noteId ls
    return (match t0 with | some t => t :: rest | none => rest)

/-- `text.split('\n')`. -/
def splitLinesGo (cur : List Char) : List Char → List (List Char)
  | [] => [cur.reverse]
  | c :: cs =>
    if c == '\n' then cur.reverse :: splitLinesGo [] cs else splitLinesGo (c :: cur) cs

def splitLines (cs : List Char) : List (List Char) := splitLinesGo [] cs

/-- The task list accumulated by the line loop, before deduplication. -/
def rawTasks (dp : String → Option Int) (now : Int) (text : String)
    (noteId : Option Nat) : Except String (List TaskItem) :=
  rawTasksAux dp now noteId (splitLines text.data)

def deduplicateTasksGo (seen : List String) : List TaskItem → List TaskItem
  | [] => []
  | t :: ts =>
    if seen.contains (lowerS t.title) then deduplicateTasksGo seen ts
    else t :: deduplicateTasksGo (lowerS t.title :: seen) ts

/-- `deduplicateTasks`: keep a task only when its lower-cased title has not
been seen yet. -/
def deduplicateTasks (ts : List TaskItem) : List TaskItem := deduplicateTasksGo [] ts

/-- `extractTasks` from `taskExtractor.js`.  `dp` models the
implementation-defined `new Date(string)` parser, `now` the clock. -/
def extractTasks (dp : String → Option Int) (now : Int) (text : String)
    (noteId : Option Nat) : Except String (List TaskItem) :=
  (rawTasks dp now text noteId).map deduplicateTasks

/-- The specification-side reading of deduplication: keep the first
occurrence of each key, dropping every later task with the same key. -/
def keepFirstByKey (key : TaskItem → String) : List TaskItem → List TaskItem
  | [] => []
  | t :: ts => t :: keepFirstByKey key (ts.filter (fun u => key u != key t))
termination_by l => l.length
decreasing_by
  simp only [List.length_cons]
  exact Nat.lt_succ_of_le (List.length_filter_le _ _)

/-! ### Task extraction theorems -/

/-- A date parser that never parses (its value is irrelevant to the
theorems that use it). -/
def dpNone : String → Option Int := fun _ => none

/-- Concrete two-note collection with distinct ids for the witness. -/
def wombatNotes : List Note :=
  [{ id := 1, title := "wombat", content := "wombat", tags := [], embedding := none },
   { id := 2, title := "cat", content := "dog", tags := [], embedding := none }]

def catNote : Note :=
  { id := 2, title := "cat", content := "dog", tags := [], embedding := none }

/-! ### `digestService.generateSummary` (C8) -/

/-- Daily activity counters. -/
structure Activity where
  notesCreated : Nat
  notesUpdated : Nat
  tasksCompleted : Nat
  meetingsRecorded : Nat

def aposS : String := String.mk [aposC]

/-- The fixed no-activity message. -/
def noActivityMsg : String :=
  "You haven" ++ aposS ++
    "t recorded any activity today yet. Start by creating a note or completing a task!"

/-- Template pluralization: plural `s` exactly for counts above 1. -/
def pluralS (n : Nat) : String := if 1 < n then "s" else ""

def clauseCreated (n : Nat) : String :=
  "Created " ++ toString n ++ " new note" ++ pluralS n ++ "."

def clauseUpdated (n : Nat) : String :=
  "Updated " ++ toString n ++ " existing note" ++ pluralS n ++ "."

def clauseTasks (n : Nat) : String :=
  "Completed " ++ toString n ++ " task" ++ pluralS n ++ "."

def clauseMeetings (n : Nat) : String :=
  "Recorded " ++ toString n ++ " meeting" ++ pluralS n ++ "."

/-- `generateSummary` from `digestService.js`: the no-activity message when
both the creation and completion counters are zero, else the fixed prefix
followed by one space-terminated clause per non-zero counter, finally
trimmed. -/
def generateSummary (a : Activity) : String :=
  if a.notesCreated = 0 ∧ a.tasksCompleted = 0 then noActivityMsg
  else
    jsTrimS ("Today you were productive! "
      ++ (if 0 < a.notesCreated then clauseCreated a.notesCreated ++ " " else "")
      ++ (if 0 < a.notesUpdated then clauseUpdated a.notesUpdated ++ " " else "")
      ++ (if 0 < a.tasksCompleted then clauseTasks a.tasksCompleted ++ " " else "")
      ++ (if 0 < a.meetingsRecorded then clauseMeetings a.meetingsRecorded ++ " " else ""))

/-- The clauses the specification describes: one per non-zero counter, in
the fixed order created, updated, tasks, meetings. -/
def summaryClauses (a : Activity) : List String :=
  (if 0 < a.notesCreated then [clauseCreated a.notesCreated] else []) ++
  (if 0 < a.notesUpdated then [clauseUpdated a.notesUpdated] else []) ++
  (if 0 < a.tasksCompleted then [clauseTasks a.tasksCompleted] else []) ++
  (if 0 < a.meetingsRecorded then [clauseMeetings a.meetingsRecorded] else [])

/-- Join clauses with single spaces (no trailing space). -/
def joinSp : List String → String
  | [] => ""
  | [c] => c
  | c :: rest => c ++ " " ++ joinSp rest

/-- Concatenate clauses, each followed by one space. -/
def strCat : List String → String
  | [] => ""
  | c :: rest => c ++ " " ++ strCat rest

/-- The specification-side summary. -/
def summarySpec (a : Activity) : String :=
  if a.notesCreated = 0 ∧ a.tasksCompleted = 0 then noActivityMsg
  else "Today you were productive! " ++ joinSp (summaryClauses a)

theorem mem_orderedInsertD (key : α → ℚ) (x a : α) :
    ∀ l : List α, a ∈ orderedInsertD key x l ↔ a = x ∨ a ∈ l
  | [] => by simp [orderedInsertD]
  | y :: ys => by
    simp only [orderedInsertD]
    split
    · simp
    · simp [mem_orderedInsertD key x a ys]
      tauto

theorem mem_sortByKeyDesc (key : α → ℚ) (a : α) :
    ∀ l : List α, a ∈ sortByKeyDesc key l ↔ a ∈ l
  | [] => Iff.rfl
  | x :: xs => by
    simp [sortByKeyDesc, mem_orderedInsertD, mem_sortByKeyDesc key a xs]

theorem pairwise_orderedInsertD (key : α → ℚ) (x : α) :
    ∀ l : List α, l.Pairwise (fun a b => key b ≤ key a) →
      (orderedInsertD key x l).Pairwise (fun a b => key b ≤ key a)
  | [], _ => by simp [orderedInsertD]
  | y :: ys, h => by
    rcases List.pairwise_cons.1 h with ⟨hy, hys⟩
    simp only [orderedInsertD]
    split
    · rename_i hxy
      refine List.pairwise_cons.2 ⟨?_, h⟩
      intro b hb
      rcases List.mem_cons.1 hb with rfl | hb
      · exact hxy
      · exact le_trans (hy b hb) hxy
    · rename_i hxy
      refine List.pairwise_cons.2 ⟨?_, pairwise_orderedInsertD key x ys hys⟩
      intro b hb
      rcases (mem_orderedInsertD key x b ys).1 hb with rfl | hb
      · exact le_of_lt (lt_of_not_le hxy)
      · exact hy b hb

theorem pairwise_sortByKeyDesc (key : α → ℚ) :
    ∀ l : List α, (sortByKeyDesc key l).Pairwise (fun a b => key b ≤ key a)
  | [] => List.Pairwise.nil
  | x :: xs => pairwise_orderedInsertD key x _ (pairwise_sortByKeyDesc key xs)

theorem orderedInsertD_of_forall_le (key : α → ℚ) (x : α) (l : List α)
    (h : ∀ z ∈ l, key z ≤ key x) : orderedInsertD key x l = x :: l := by
  cases l with
  | nil => rfl
  | cons z zs => simp [orderedInsertD, h z (by simp)]

theorem filter_orderedInsertD (key : α → ℚ) (p : α → Bool) (x : α) :
    ∀ l : List α, l.Pairwise (fun a b => key b ≤ key a) →
      (orderedInsertD key x l).filter p =
        if p x then orderedInsertD key x (l.filter p) else l.filter p
  | [], _ => by
    simp only [orderedInsertD, List.filter]
    split <;> simp_all [orderedInsertD]
  | y :: ys, h => by
    rcases List.pairwise_cons.1 h with ⟨hy, hys⟩
    simp only [orderedInsertD]
    split
    · rename_i hxy
      by_cases hpx : p x <;> by_cases hpy : p y <;>
        simp only [List.filter, hpx, hpy, if_true, if_false, cond_true, cond_false]
      · rw [orderedInsertD_of_forall_le key x (y :: List.filter p ys)]
        intro z hz
        rcases List.mem_cons.1 hz with rfl | hz
        · exact hxy
        · exact le_trans (hy z (List.mem_of_mem_filter hz)) hxy
      · rw [orderedInsertD_of_forall_le key x (List.filter p ys)]
        intro z hz
        exact le_trans (hy z (List.mem_of_mem_filter hz)) hxy
      · rfl
      · rfl
    · rename_i hxy
      by_cases hpx : p x <;> by_cases hpy : p y <;>
        simp only [List.filter, hpx, hpy, if_true, if_false, cond_true, cond_false] <;>
        rw [filter_orderedInsertD key p x ys hys] <;>
        simp only [hpx, if_true, if_false]
      · simp [orderedInsertD, hxy, List.filter, hpy]
      · simp [List.filter, hpy]

theorem filter_sortByKeyDesc (key : α → ℚ) (p : α → Bool) :
    ∀ l : List α, (sortByKeyDesc key l).filter p = sortByKeyDesc key (l.filter p)
  | [] => rfl
  | x :: xs => by
    simp only [sortByKeyDesc]
    rw [filter_orderedInsertD key p x _ (pairwise_sortByKeyDesc key xs),
      filter_sortByKeyDesc key p xs]
    by_cases hpx : p x <;> simp [List.filter, hpx, sortByKeyDesc]

/-! ### Norm of the generated embedding (C1) -/

theorem sumSq_cons (x : ℚ) (xs : List ℚ) : sumSq (x :: xs) = x * x + sumSq xs := by
  simp [sumSq]

theorem sumSq_nonneg (l : List ℚ) : 0 ≤ sumSq l := by
  induction l with
  | nil => simp [sumSq]
  | cons x xs ih => rw [sumSq_cons]; exact add_nonneg (mul_self_nonneg x) ih

theorem sumSq_pos (l : List ℚ) (hne : l ≠ []) (h : ∀ v ∈ l, 1 ≤ v) : 0 < sumSq l := by
  cases l with
  | nil => exact absurd rfl hne
  | cons x xs =>
    rw [sumSq_cons]
    have hx : (1 : ℚ) ≤ x := h x (by simp)
    have : (0 : ℚ) < x * x :=
      lt_of_lt_of_le one_pos (le_trans hx (le_mul_of_one_le_left (le_trans zero_le_one hx) hx))
    exact add_pos_of_pos_of_nonneg this (sumSq_nonneg xs)

theorem sumSq_map_div (m : ℚ) (hm : m ≠ 0) :
    ∀ l : List ℚ, sumSq (l.map (fun v => v / m)) = sumSq l / (m * m)
  | [] => by simp [sumSq]
  | x :: xs => by
    rw [List.map_cons, sumSq_cons, sumSq_cons, sumSq_map_div m hm xs]
    field_simp

theorem rawEmbedding_eq_nil (text : String) :
    rawEmbedding text = [] ↔ embedTokens text = [] := by
  simp [rawEmbedding, List.take_eq_nil_iff]

theorem mem_rawEmbedding_one_le (text : String) :
    ∀ v ∈ rawEmbedding text, 1 ≤ v := by
  intro v hv
  simp only [rawEmbedding, List.mem_map] at hv
  rcases hv with ⟨t, ht, rfl⟩
  have htm : t ∈ embedTokens text := List.mem_of_mem_take ht
  have : 0 < (embedTokens text).count t := List.count_pos_iff.2 htm
  exact_mod_cast Nat.one_le_cast.2 this

/-- C1: for every input text, the fingerprint of `generateEmbedding` is empty
exactly when the tokenization profile (lower-case, punctuation stripped,
whitespace split, length > 2) filters out every token, and otherwise has
Euclidean norm 1 (sum of squares 1); the hypotheses state that `s` computes
the exact square root of the raw vector's sum of squares, as `Math.sqrt`
does up to floating tolerance. -/
theorem generateEmbedding_unit_norm (s : ℚ → ℚ) (text : String)
    (hsq : s (sumSq (rawEmbedding text)) * s (sumSq (rawEmbedding text)) =
      sumSq (rawEmbedding text))
    (hnn : 0 ≤ s (sumSq (rawEmbedding text))) :
    (generateEmbedding s text = [] ↔ embedTokens text = []) ∧
    (embedTokens text ≠ [] → sumSq (generateEmbedding s text) = 1) := by
  by_cases htok : embedTokens text = []
  · have hre : rawEmbedding text = [] := (rawEmbedding_eq_nil text).2 htok
    refine ⟨?_, fun h => absurd htok h⟩
    simp only [generateEmbedding, hre]
    split <;> simp [htok]
  · have hre : rawEmbedding text ≠ [] := fun h => htok ((rawEmbedding_eq_nil text).1 h)
    have hpos : 0 < sumSq (rawEmbedding text) :=
      sumSq_pos _ hre (mem_rawEmbedding_one_le text)
    have hm0 : s (sumSq (rawEmbedding text)) ≠ 0 := by
      intro h
      rw [h, mul_zero] at hsq
      exact absurd hsq.symm (ne_of_gt hpos)
    have hmpos : 0 < s (sumSq (rawEmbedding text)) := lt_of_le_of_ne hnn (Ne.symm hm0)
    constructor
    · simp only [generateEmbedding, if_pos hmpos]
      simp [List.map_eq_nil_iff, hre, htok]
    · intro _
      simp only [generateEmbedding, if_pos hmpos]
      rw [sumSq_map_div _ hm0, hsq]
      exact div_self (ne_of_gt hpos)

theorem generateEmbedding_unit_norm_witness :
    (sqrtFour (sumSq (rawEmbedding "aaa bbb ccc ddd")) *
        sqrtFour (sumSq (rawEmbedding "aaa bbb ccc ddd")) =
      sumSq (rawEmbedding "aaa bbb ccc ddd")) ∧
    (0 ≤ sqrtFour (sumSq (rawEmbedding "aaa bbb ccc ddd"))) ∧
    ((generateEmbedding sqrtFour "aaa bbb ccc ddd" = [] ↔
        embedTokens "aaa bbb ccc ddd" = []) ∧
      (embedTokens "aaa bbb ccc ddd" ≠ [] →
        sumSq (generateEmbedding sqrtFour "aaa bbb ccc ddd") = 1)) := by
  have h1 : embedTokens "aaa bbb ccc ddd" = ["aaa", "bbb", "ccc", "ddd"] := by decide
  have h2 : List.take 100 ["aaa", "bbb", "ccc", "ddd"] = ["aaa", "bbb", "ccc", "ddd"] := by
    decide
  have hc : ∀ t ∈ ["aaa", "bbb", "ccc", "ddd"],
      List.count t ["aaa", "bbb", "ccc", "ddd"] = 1 := by decide
  have hraw : rawEmbedding "aaa bbb ccc ddd" = [1, 1, 1, 1] := by
    simp only [rawEmbedding, h1, h2, List.map_cons, List.map_nil]
    rw [hc "aaa" (by decide), hc "bbb" (by decide), hc "ccc" (by decide),
      hc "ddd" (by decide)]
    norm_num
  have hS : sumSq (rawEmbedding "aaa bbb ccc ddd") = 4 := by
    rw [hraw]
    simp only [sumSq, List.map_cons, List.map_nil, List.sum_cons, List.sum_nil]
    norm_num
  refine ⟨?_, ?_, generateEmbedding_unit_norm sqrtFour "aaa bbb ccc ddd" ?_ ?_⟩ <;>
    rw [hS] <;> norm_num [sqrtFour]

/-- C2: `semanticSearch` returns exactly the notes scoring strictly above
`0.1` against the query fingerprint (cached embedding if present, else one
freshly computed from title and content), in descending score order with a
stable tie-break — i.e. it agrees with the specification-side
`semanticSearchSpec`, and its output is pairwise descending. -/
theorem semanticSearch_spec (s : ℚ → ℚ) (query : String) (notes : List Note) :
    semanticSearch s query notes = semanticSearchSpec s query notes ∧
    (semanticSearch s query notes).Pairwise
      (fun a b => b.similarity ≤ a.similarity) := by
  constructor
  · exact filter_sortByKeyDesc ScoredNote.similarity _ _
  · exact List.Pairwise.sublist (List.filter_sublist _)
      (pairwise_sortByKeyDesc ScoredNote.similarity _)

/-- C3 (code bug): on any pair of notes that both carry a fingerprint,
`buildGraph` does not compute the blended similarity at all — the call
`aiService.cosineSimilarity(...)` throws, because the `aiService` object does
not export `cosineSimilarity`.  Evaluated here at two embedded notes whose
blend (0.5 · vector similarity = 0.5) would exceed the threshold 0.3. -/
theorem buildGraph_embedded_notes_throws :
    buildGraph
      [{ id := 1, title := "", content := "", tags := [], embedding := some [1] },
       { id := 2, title := "", content := "", tags := [], embedding := some [1] }]
      (3 / 10) =
    .error "TypeError: aiService.cosineSimilarity is not a function" := by
  rfl

theorem dotTrunc_comm : ∀ a b : List ℚ, dotTrunc a b = dotTrunc b a
  | [], [] => rfl
  | [], _ :: _ => rfl
  | _ :: _, [] => rfl
  | a :: as', b :: bs => by
    simp only [dotTrunc, dotTrunc_comm as' bs, mul_comm]

theorem cosineSimilarity_comm (v w : Option (List ℚ)) :
    cosineSimilarity v w = cosineSimilarity w v := by
  cases v <;> cases w <;> simp only [cosineSimilarity] <;> try rfl
  rw [Bool.or_comm, dotTrunc_comm]

theorem calculateTagSimilarity_comm (t u : List String) :
    calculateTagSimilarity t u = calculateTagSimilarity u t := by
  simp only [calculateTagSimilarity, Bool.or_comm, Finset.inter_comm, add_comm]

theorem calculateKeywordSimilarity_comm (x y : String) :
    calculateKeywordSimilarity x y = calculateKeywordSimilarity y x := by
  simp only [calculateKeywordSimilarity, Finset.inter_comm, Finset.union_comm]

/-- C10: the blended note similarity is symmetric — each of its components
(tag Dice coefficient, truncated dot product, keyword Jaccard index) is
symmetric, and `calculateSimilarity` (including the exceptional case where
both fingerprints are present) gives the same result in both orientations. -/
theorem calculateSimilarity_symm :
    (∀ a b : Note, calculateSimilarity a b = calculateSimilarity b a) ∧
    (∀ v w : Option (List ℚ), cosineSimilarity v w = cosineSimilarity w v) ∧
    (∀ t u : List String, calculateTagSimilarity t u = calculateTagSimilarity u t) ∧
    (∀ x y : String, calculateKeywordSimilarity x y = calculateKeywordSimilarity y x) := by
  refine ⟨?_, cosineSimilarity_comm, calculateTagSimilarity_comm,
    calculateKeywordSimilarity_comm⟩
  intro a b
  simp only [calculateSimilarity]
  cases a.embedding <;> cases b.embedding <;>
    simp only [calculateTagSimilarity_comm a.tags b.tags,
      calculateKeywordSimilarity_comm (noteText a) (noteText b)]

/-- C4 (code bug): on "TODO: call dentist tomorrow!!!" the extractor never
produces a task — the `today|tomorrow` due-date handler calls
`match.toLowerCase()` on the regex match array, which has no such method, so
the call throws for any clock value and date parser. -/
theorem extractTasks_tomorrow_throws (dp : String → Option Int) (now : Int)
    (noteId : Option Nat) :
    extractTasks dp now "TODO: call dentist tomorrow!!!" noteId =
      .error "TypeError: match.toLowerCase is not a function" := by
  rfl

theorem mkSingle_beq_x (b : Char) : (String.mk [b] == "x") = (b == 'x') := by
  by_cases hb : b = 'x'
  · subst hb; rfl
  · have h1 : ¬(String.mk [b] = "x") := by
      intro h
      have := congrArg String.data h
      simp at this
      exact hb this
    simp [h1, hb]

/-- C5 (counterexample): the line "- [X] buy milk" matches the checkbox
pattern with the checked bracket 'X', yet the extracted task has
`completed = false`, because the code compares `match[1] === 'x'`
case-sensitively. -/
theorem checkbox_uppercase_not_completed :
    matchCheckbox (jsTrim "- [X] buy milk".data) = some ('X', "buy milk".data) ∧
    lineTask dpNone 0 none "- [X] buy milk".data =
      .ok (some { title := "buy milk", noteId := none, completed := false,
                  priority := "medium", dueDate := none,
                  extractedFrom := "- [X] buy milk" }) :=
  ⟨rfl, rfl⟩

/-- C5 (amended): for a line matching the checkbox pattern that yields a
task, the task's completed flag is true iff the bracket character is the
lower-case 'x'; an upper-case 'X', accepted as checked by the case-insensitive
pattern, yields `completed = false`. -/
theorem lineTask_checkbox_completed (dp : String → Option Int) (now : Int)
    (noteId : Option Nat) (line : List Char) (b : Char) (g : List Char)
    (t : TaskItem) (hm : matchCheckbox (jsTrim line) = some (b, g))
    (ht : lineTask dp now noteId line = .ok (some t)) :
    t.completed = (b == 'x') := by
  have hfp : firstPatternMatch (jsTrim line) = some (String.mk [b], String.mk g) := by
    unfold firstPatternMatch
    rw [hm]
  simp only [lineTask] at ht
  split at ht
  · simp at ht
  · rw [hfp] at ht
    simp only [buildTask] at ht
    split at ht
    · rcases hmd : extractMetadata dp now (jsTrimS (String.mk g)).data with e | md <;>
        rw [hmd] at ht <;> simp [Except.map] at ht
      rw [← ht]
      exact mkSingle_beq_x b
    · simp at ht

theorem lineTask_checkbox_completed_witness :
    matchCheckbox (jsTrim "- [x] buy milk".data) = some ('x', "buy milk".data) ∧
    lineTask dpNone 0 none "- [x] buy milk".data =
      .ok (some { title := "buy milk", noteId := none, completed := true,
                  priority := "medium", dueDate := none,
                  extractedFrom := "- [x] buy milk" }) ∧
    ({ title := "buy milk", noteId := none, completed := true,
       priority := "medium", dueDate := none,
       extractedFrom := "- [x] buy milk" : TaskItem }).completed = ('x' == 'x') :=
  ⟨rfl, rfl,
    lineTask_checkbox_completed dpNone 0 none "- [x] buy milk".data 'x'
      "buy milk".data _ rfl rfl⟩

theorem deduplicateTasksGo_eq_keepFirst (l : List TaskItem) :
    ∀ seen : List String, deduplicateTasksGo seen l =
      keepFirstByKey (fun t => lowerS t.title)
        (l.filter (fun t => !(seen.contains (lowerS t.title)))) := by
  induction l with
  | nil => intro seen; simp [deduplicateTasksGo, keepFirstByKey]
  | cons t ts ih =>
    intro seen
    cases hc : seen.contains (lowerS t.title) with
    | true =>
      rw [deduplicateTasksGo, if_pos hc, ih seen, List.filter_cons, hc]
      rfl
    | false =>
      rw [deduplicateTasksGo, if_neg (by rw [hc]; simp)]
      have hfc : List.filter (fun u => !(seen.contains (lowerS u.title))) (t :: ts)
          = t :: List.filter (fun u => !(seen.contains (lowerS u.title))) ts := by
        rw [List.filter_cons, hc]
        rfl
      rw [hfc, keepFirstByKey, ih (lowerS t.title :: seen), List.filter_filter]
      congr 1
      apply congrArg
      apply List.filter_congr
      intro u _
      simp only [List.contains_cons, Bool.not_or, bne]

theorem deduplicateTasks_eq_keepFirst (l : List TaskItem) :
    deduplicateTasks l = keepFirstByKey (fun t => lowerS t.title) l := by
  rw [deduplicateTasks, deduplicateTasksGo_eq_keepFirst l []]
  congr 1
  simp

theorem mem_keepFirstByKey (key : TaskItem → String) (u : TaskItem) :
    ∀ l : List TaskItem, u ∈ keepFirstByKey key l → u ∈ l
  | [] => by simp [keepFirstByKey]
  | t :: ts => by
    rw [keepFirstByKey]
    intro h
    rcases List.mem_cons.1 h with rfl | h
    · simp
    · exact List.mem_cons_of_mem t
        (List.mem_of_mem_filter (mem_keepFirstByKey key u _ h))
termination_by l => l.length
decreasing_by
  simp only [List.length_cons]
  exact Nat.lt_succ_of_le (List.length_filter_le _ _)

theorem pairwise_keepFirstByKey (key : TaskItem → String) :
    ∀ l : List TaskItem,
      (keepFirstByKey key l).Pairwise (fun a b => key a ≠ key b)
  | [] => by simp [keepFirstByKey]
  | t :: ts => by
    rw [keepFirstByKey]
    refine List.pairwise_cons.2 ⟨?_, pairwise_keepFirstByKey key _⟩
    intro b hb
    have := List.of_mem_filter (mem_keepFirstByKey key b _ hb)
    simp only [bne_iff_ne, ne_eq] at this
    exact fun h => this h.symm
termination_by l => l.length
decreasing_by
  simp only [List.length_cons]
  exact Nat.lt_succ_of_le (List.length_filter_le _ _)

/-- C6: when extraction succeeds, no two returned tasks have titles equal
under case-insensitive comparison, and the result keeps exactly the first
occurrence (in line order) of each cleaned title from the raw task list. -/
theorem extractTasks_dedup (dp : String → Option Int) (now : Int) (text : String)
    (noteId : Option Nat) (raw ts : List TaskItem)
    (hraw : rawTasks dp now text noteId = .ok raw)
    (hts : extractTasks dp now text noteId = .ok ts) :
    ts.Pairwise (fun a b => lowerS a.title ≠ lowerS b.title) ∧
    ts = keepFirstByKey (fun t => lowerS t.title) raw := by
  unfold extractTasks at hts
  rw [hraw] at hts
  simp only [Except.map] at hts
  have hts' : ts = deduplicateTasks raw := by
    cases hts
    rfl
  subst hts'
  rw [deduplicateTasks_eq_keepFirst]
  exact ⟨pairwise_keepFirstByKey _ raw, rfl⟩

theorem extractTasks_dedup_witness :
    rawTasks dpNone 0 "TODO: Buy milk\nTODO: BUY MILK" none =
      .ok [{ title := "Buy milk", noteId := none, completed := false,
             priority := "medium", dueDate := none, extractedFrom := "TODO: Buy milk" },
           { title := "BUY MILK", noteId := none, completed := false,
             priority := "medium", dueDate := none, extractedFrom := "TODO: BUY MILK" }] ∧
    extractTasks dpNone 0 "TODO: Buy milk\nTODO: BUY MILK" none =
      .ok [{ title := "Buy milk", noteId := none, completed := false,
             priority := "medium", dueDate := none, extractedFrom := "TODO: Buy milk" }] ∧
    ([{ title := "Buy milk", noteId := none, completed := false,
        priority := "medium", dueDate := none,
        extractedFrom := "TODO: Buy milk" : TaskItem }].Pairwise
          (fun a b => lowerS a.title ≠ lowerS b.title) ∧
      [{ title := "Buy milk", noteId := none, completed := false,
         priority := "medium", dueDate := none,
         extractedFrom := "TODO: Buy milk" : TaskItem }] =
        keepFirstByKey (fun t => lowerS t.title)
          [{ title := "Buy milk", noteId := none, completed := false,
             priority := "medium", dueDate := none, extractedFrom := "TODO: Buy milk" },
           { title := "BUY MILK", noteId := none, completed := false,
             priority := "medium", dueDate := none, extractedFrom := "TODO: BUY MILK" }]) :=
  ⟨rfl, rfl,
    extractTasks_dedup dpNone 0 "TODO: Buy milk\nTODO: BUY MILK" none _ _ rfl rfl⟩

/-! ### Degenerate inputs (C9) -/

/-- C9: degenerate inputs give neutral values: vector similarity of a missing
(`null`) or empty fingerprint is 0 on either side; `buildGraph` and
`clusterByTopic` on an empty note collection give empty lists; and
`extractTasks` on text in which no line matches any task pattern gives an
empty task list. -/
theorem degenerate_inputs_neutral (dp : String → Option Int) (now : Int)
    (noteId : Option Nat) (text : String)
    (hno : ∀ l ∈ splitLines text.data, firstPatternMatch (jsTrim l) = none) :
    (∀ v : Option (List ℚ), cosineSimilarity none v = 0) ∧
    (∀ v : Option (List ℚ), cosineSimilarity v none = 0) ∧
    (∀ v : Option (List ℚ), cosineSimilarity (some []) v = 0) ∧
    (∀ v : Option (List ℚ), cosineSimilarity v (some []) = 0) ∧
    (∀ t : ℚ, buildGraph [] t = .ok []) ∧
    (∀ k : Nat, clusterByTopic [] k = []) ∧
    extractTasks dp now text noteId = .ok [] := by
  refine ⟨?_, ?_, ?_, ?_, ?_, ?_, ?_⟩
  · intro v; cases v <;> rfl
  · intro v; cases v <;> rfl
  · intro v; cases v <;> rfl
  · intro v
    cases v with
    | none => rfl
    | some a => cases a <;> simp [cosineSimilarity]
  · intro t; rfl
  · intro k
    simp [clusterByTopic, seededClustersOf, topKeywordsOf, uniqFirst, uniqFirstGo,
      allKeywordsOf, unassignedOf, assignedIdsOf, seedClusterNotes, sortByKeyDesc,
      List.take_nil]
  · have hlines : ∀ ls : List (List Char),
        (∀ l ∈ ls, firstPatternMatch (jsTrim l) = none) →
        rawTasksAux dp now noteId ls = .ok [] := by
      intro ls
      induction ls with
      | nil => intro _; rfl
      | cons l ls ih =>
        intro h
        have hl : lineTask dp now noteId l = .ok none := by
          simp only [lineTask]
          split
          · rfl
          · rw [h l (by simp)]
        have hr : rawTasksAux dp now noteId ls = .ok [] :=
          ih (fun x hx => h x (List.mem_cons_of_mem l hx))
        simp only [rawTasksAux, hl, hr]
        rfl
    unfold extractTasks rawTasks
    rw [hlines (splitLines text.data) hno]
    rfl

theorem degenerate_inputs_neutral_witness :
    (∀ l ∈ splitLines ("hello world" ++ "\n" ++ "nothing here at all").data,
      firstPatternMatch (jsTrim l) = none) ∧
    ((∀ v : Option (List ℚ), cosineSimilarity none v = 0) ∧
     (∀ v : Option (List ℚ), cosineSimilarity v none = 0) ∧
     (∀ v : Option (List ℚ), cosineSimilarity (some []) v = 0) ∧
     (∀ v : Option (List ℚ), cosineSimilarity v (some []) = 0) ∧
     (∀ t : ℚ, buildGraph [] t = .ok []) ∧
     (∀ k : Nat, clusterByTopic [] k = []) ∧
     extractTasks dpNone 0 ("hello world" ++ "\n" ++ "nothing here at all") none = .ok []) :=
  ⟨by decide,
    degenerate_inputs_neutral dpNone 0 none
      ("hello world" ++ "\n" ++ "nothing here at all") (by decide)⟩

/-! ### Topic clustering (C7) -/

theorem contains_iff {α : Type} [BEq α] [LawfulBEq α] (l : List α) (x : α) :
    l.contains x = true ↔ x ∈ l :=
  List.elem_iff

theorem mem_uniqFirstGo (x : String) :
    ∀ (l : List String) (seen : List String), x ∈ uniqFirstGo seen l → x ∈ l
  | [], _ => by simp [uniqFirstGo]
  | y :: ys, seen => by
    simp only [uniqFirstGo]
    split
    · intro h
      exact List.mem_cons_of_mem y (mem_uniqFirstGo x ys seen h)
    · intro h
      rcases List.mem_cons.1 h with rfl | h
      · simp
      · exact List.mem_cons_of_mem y (mem_uniqFirstGo x ys _ h)

theorem mem_topKeywordsOf (notes : List Note) (k : Nat) (kw : String)
    (h : kw ∈ topKeywordsOf notes k) : ∃ n ∈ notes, kw ∈ keywordsOf n := by
  simp only [topKeywordsOf, List.mem_map] at h
  rcases h with ⟨e, he, rfl⟩
  have he1 := List.mem_of_mem_take he
  rw [mem_sortByKeyDesc] at he1
  simp only [List.mem_map] at he1
  rcases he1 with ⟨w, hw, rfl⟩
  have hw2 : w ∈ allKeywordsOf notes := mem_uniqFirstGo w _ [] hw
  simp only [allKeywordsOf, List.mem_flatten, List.mem_map] at hw2
  rcases hw2 with ⟨l, ⟨n, hn, rfl⟩, hwl⟩
  exact ⟨n, hn, hwl⟩

theorem exists_mem_enumFrom (x : String) :
    ∀ (l : List String) (s : Nat), x ∈ l → ∃ i, (i, x) ∈ l.enumFrom s
  | [], _, h => absurd h (List.not_mem_nil x)
  | y :: ys, s, h => by
    rcases List.mem_cons.1 h with rfl | h
    · exact ⟨s, by simp [List.enumFrom]⟩
    · rcases exists_mem_enumFrom x ys (s + 1) h with ⟨i, hi⟩
      exact ⟨i, by simp [List.enumFrom, hi]⟩

theorem mem_of_mem_enumFrom (x : String) (i : Nat) :
    ∀ (l : List String) (s : Nat), (i, x) ∈ l.enumFrom s → x ∈ l
  | [], _, h => absurd h (List.not_mem_nil _)
  | y :: ys, s, h => by
    simp only [List.enumFrom, List.mem_cons] at h
    rcases h with h | h
    · have : x = y := congrArg Prod.snd h
      simp [this]
    · exact List.mem_cons_of_mem y (mem_of_mem_enumFrom x i ys (s + 1) h)

theorem mem_seedClusterNotes (notes : List Note) (kw : String) (n : Note) :
    n ∈ seedClusterNotes notes kw ↔ n ∈ notes ∧ kw ∈ keywordsOf n := by
  simp [seedClusterNotes, List.mem_filter, contains_iff]

theorem seededClustersOf_mem (notes : List Note) (k : Nat) (c : Cluster)
    (hc : c ∈ seededClustersOf notes k) :
    c.label ∈ topKeywordsOf notes k ∧ c.notes = seedClusterNotes notes c.label := by
  simp only [seededClustersOf, List.mem_filterMap] at hc
  rcases hc with ⟨p, hp, hsome⟩
  rcases hq : (seedClusterNotes notes p.2).isEmpty with _ | _
  · rw [hq] at hsome
    simp only [if_false, Bool.false_eq_true, Option.some.injEq] at hsome
    subst hsome
    refine ⟨?_, rfl⟩
    exact mem_of_mem_enumFrom p.2 p.1 _ 0 (by rcases p with ⟨i, kw⟩; exact hp)
  · rw [hq] at hsome
    simp at hsome

theorem seededClustersOf_exists (notes : List Note) (k : Nat) (kw : String) (n : Note)
    (hkw : kw ∈ topKeywordsOf notes k) (hn : n ∈ notes) (hmem : kw ∈ keywordsOf n) :
    ∃ c ∈ seededClustersOf notes k, c.label = kw ∧
      c.notes = seedClusterNotes notes kw := by
  rcases exists_mem_enumFrom kw _ 0 hkw with ⟨i, hi⟩
  have hne : (seedClusterNotes notes kw).isEmpty = false := by
    have hmem2 : n ∈ seedClusterNotes notes kw :=
      (mem_seedClusterNotes notes kw n).2 ⟨hn, hmem⟩
    cases hl : seedClusterNotes notes kw with
    | nil => rw [hl] at hmem2; exact absurd hmem2 (List.not_mem_nil n)
    | cons a as => rfl
  refine ⟨⟨i, kw, seedClusterNotes notes kw⟩, ?_, rfl, rfl⟩
  simp only [seededClustersOf, List.mem_filterMap]
  exact ⟨(i, kw), hi, by simp [hne]⟩

/-- C7 (amended): provided the notes carry pairwise-distinct ids, a note
joins every seeded cluster whose seed keyword (a top-`k` keyword by global
frequency) occurs in its own stop-word-filtered keyword list
(multi-membership allowed); a note sharing no keyword with any seed lies in
the "Other" cluster and in no other cluster; and when every note shares a
keyword with some seed, no "Other" cluster is appended at all. -/
theorem clusterByTopic_membership (notes : List Note) (k : Nat) (n : Note)
    (hid : (notes.map Note.id).Nodup) (hn : n ∈ notes) :
    (∀ kw ∈ topKeywordsOf notes k, kw ∈ keywordsOf n →
      ∃ c ∈ clusterByTopic notes k, c.label = kw ∧ n ∈ c.notes) ∧
    ((∀ kw ∈ topKeywordsOf notes k, kw ∉ keywordsOf n) →
      (∃ c ∈ clusterByTopic notes k, c.label = "Other" ∧ n ∈ c.notes) ∧
      (∀ c ∈ clusterByTopic notes k, n ∈ c.notes → c.label = "Other")) ∧
    ((∀ m ∈ notes, ∃ kw ∈ topKeywordsOf notes k, kw ∈ keywordsOf m) →
      clusterByTopic notes k = seededClustersOf notes k) := by
  refine ⟨?_, ?_, ?_⟩
  · intro kw h1 h2
    rcases seededClustersOf_exists notes k kw n h1 hn h2 with ⟨c, hc, hlab, hnts⟩
    refine ⟨c, ?_, hlab, ?_⟩
    · exact List.mem_append_left _ hc
    · rw [hnts]
      exact (mem_seedClusterNotes notes kw n).2 ⟨hn, h2⟩
  · intro hnone
    have hnotin : ∀ c ∈ seededClustersOf notes k, n ∉ c.notes := by
      intro c hc hmem
      rcases seededClustersOf_mem notes k c hc with ⟨hlab, hnts⟩
      rw [hnts] at hmem
      exact hnone c.label hlab ((mem_seedClusterNotes notes c.label n).1 hmem).2
    have hnotassigned : ¬ n.id ∈ assignedIdsOf notes k := by
      intro hmem
      simp only [assignedIdsOf, List.mem_map, List.mem_flatMap] at hmem
      rcases hmem with ⟨m, ⟨c, hc, hmc⟩, hidm⟩
      have hmnotes : m ∈ notes := by
        rcases seededClustersOf_mem notes k c hc with ⟨_, hnts⟩
        rw [hnts] at hmc
        exact ((mem_seedClusterNotes notes c.label m).1 hmc).1
      have : m = n := List.inj_on_of_nodup_map hid hmnotes hn hidm
      subst this
      exact hnotin c hc hmc
    have hunassigned : n ∈ unassignedOf notes k := by
      simp only [unassignedOf, List.mem_filter]
      refine ⟨hn, ?_⟩
      simp only [Bool.not_eq_true']
      rw [← Bool.not_eq_true]
      intro hcon
      exact hnotassigned ((contains_iff _ _).1 hcon)
    have hne : (unassignedOf notes k).isEmpty = false := by
      cases hl : unassignedOf notes k with
      | nil => rw [hl] at hunassigned; exact absurd hunassigned (List.not_mem_nil n)
      | cons a as => rfl
    have hcl : clusterByTopic notes k = seededClustersOf notes k ++
        [⟨(seededClustersOf notes k).length, "Other", unassignedOf notes k⟩] := by
      rw [clusterByTopic, hne]
      rfl
    constructor
    · refine ⟨⟨(seededClustersOf notes k).length, "Other", unassignedOf notes k⟩,
        ?_, rfl, hunassigned⟩
      rw [hcl]
      exact List.mem_append_right _ (by simp)
    · intro c hc hmemc
      rw [hcl] at hc
      rcases List.mem_append.1 hc with h | h
      · exact absurd hmemc (hnotin c h)
      · rw [List.mem_singleton.1 h]
  · intro hall
    have hempty : unassignedOf notes k = [] := by
      rw [unassignedOf]
      rw [List.filter_eq_nil_iff]
      intro m hm
      rcases hall m hm with ⟨kw, hkw1, hkw2⟩
      rcases seededClustersOf_exists notes k kw m hkw1 hm hkw2 with ⟨c, hc, hlab, hnts⟩
      have hassigned : m.id ∈ assignedIdsOf notes k := by
        simp only [assignedIdsOf, List.mem_map, List.mem_flatMap]
        refine ⟨m, ⟨c, hc, ?_⟩, rfl⟩
        rw [hnts]
        exact (mem_seedClusterNotes notes kw m).2 ⟨hm, hkw2⟩
      simp [contains_iff, hassigned]
    rw [clusterByTopic, hempty]
    simp

/-- C7 (counterexample): with two notes sharing id 1 — one whose sole
keyword "wombat" seeds the only cluster, one (title "cat", content "dog")
with an empty keyword list — the second note shares no keyword with any seed
yet lands in no cluster at all: no "Other" cluster is produced, because
assignment is tracked by note id and its id is already taken. -/
theorem clusterByTopic_duplicate_id_no_other :
    keywordsOf { id := 1, title := "cat", content := "dog", tags := [],
                 embedding := none } = [] ∧
    topKeywordsOf
      [{ id := 1, title := "wombat", content := "wombat", tags := [], embedding := none },
       { id := 1, title := "cat", content := "dog", tags := [], embedding := none }] 5 =
      ["wombat"] ∧
    clusterByTopic
      [{ id := 1, title := "wombat", content := "wombat", tags := [], embedding := none },
       { id := 1, title := "cat", content := "dog", tags := [], embedding := none }] 5 =
      [{ id := 0, label := "wombat",
         notes := [{ id := 1, title := "wombat", content := "wombat", tags := [],
                     embedding := none }] }] :=
  ⟨by decide, by decide, by decide⟩

theorem clusterByTopic_membership_witness :
    ((wombatNotes.map Note.id).Nodup ∧ catNote ∈ wombatNotes) ∧
    ((∀ kw ∈ topKeywordsOf wombatNotes 5, kw ∈ keywordsOf catNote →
        ∃ c ∈ clusterByTopic wombatNotes 5, c.label = kw ∧ catNote ∈ c.notes) ∧
     ((∀ kw ∈ topKeywordsOf wombatNotes 5, kw ∉ keywordsOf catNote) →
        (∃ c ∈ clusterByTopic wombatNotes 5, c.label = "Other" ∧ catNote ∈ c.notes) ∧
        (∀ c ∈ clusterByTopic wombatNotes 5, catNote ∈ c.notes → c.label = "Other")) ∧
     ((∀ m ∈ wombatNotes, ∃ kw ∈ topKeywordsOf wombatNotes 5, kw ∈ keywordsOf m) →
        clusterByTopic wombatNotes 5 = seededClustersOf wombatNotes 5)) :=
  ⟨⟨by decide, by decide⟩,
    clusterByTopic_membership wombatNotes 5 catNote (by decide) (by decide)⟩

theorem backTrim_dot_space (l : List Char) :
    ((l ++ ['.', ' ']).reverse.dropWhile jsSpace).reverse = l ++ ['.'] := by
  have h1 : (l ++ ['.', ' ']).reverse = ' ' :: '.' :: l.reverse := by
    simp
  rw [h1]
  rw [List.dropWhile_cons]
  simp only [show jsSpace ' ' = true by decide, if_true]
  rw [List.dropWhile_cons]
  simp only [show jsSpace '.' = false by decide, Bool.false_eq_true, if_false]
  simp

theorem backTrim_strCat :
    ∀ (cls : List String) (pre : List Char), cls ≠ [] →
      (∀ c ∈ cls, ∃ u, c.data = u ++ ['.']) →
      ((pre ++ (strCat cls).data).reverse.dropWhile jsSpace).reverse =
        pre ++ (joinSp cls).data
  | [], _, hne, _ => absurd rfl hne
  | [c], pre, _, hd => by
    rcases hd c (by simp) with ⟨u, hu⟩
    have h1 : (strCat [c]).data = c.data ++ [' '] := by
      simp [strCat, String.data_append]
    rw [h1, hu]
    have h2 : pre ++ (u ++ ['.'] ++ [' ']) = (pre ++ u) ++ ['.', ' '] := by
      simp [List.append_assoc]
    rw [h2, backTrim_dot_space]
    simp [joinSp, hu, List.append_assoc]
  | c :: c' :: rest, pre, _, hd => by
    have h1 : (strCat (c :: c' :: rest)).data =
        c.data ++ [' '] ++ (strCat (c' :: rest)).data := by
      simp [strCat, String.data_append, List.append_assoc]
    rw [h1]
    have h2 : pre ++ (c.data ++ [' '] ++ (strCat (c' :: rest)).data) =
        (pre ++ c.data ++ [' ']) ++ (strCat (c' :: rest)).data := by
      simp [List.append_assoc]
    rw [h2, backTrim_strCat (c' :: rest) (pre ++ c.data ++ [' ']) (by simp)
      (fun x hx => hd x (List.mem_cons_of_mem c hx))]
    have h3 : joinSp (c :: c' :: rest) = c ++ " " ++ joinSp (c' :: rest) := by
      rfl
    rw [h3]
    simp [String.data_append, List.append_assoc]

theorem dropWhile_front (X : List Char) :
    List.dropWhile jsSpace ("Today you were productive! ".data ++ X) =
      "Today you were productive! ".data ++ X := by
  rw [show "Today you were productive! ".data =
    'T' :: "oday you were productive! ".data from rfl]
  rw [List.cons_append, List.dropWhile_cons]
  simp only [show jsSpace 'T' = false by decide, Bool.false_eq_true, if_false]

theorem jsTrimS_clauses (cls : List String) (hne : cls ≠ [])
    (hd : ∀ c ∈ cls, ∃ u, c.data = u ++ ['.']) :
    jsTrimS ("Today you were productive! " ++ strCat cls) =
      "Today you were productive! " ++ joinSp cls := by
  rw [jsTrimS, jsTrim]
  rw [show ("Today you were productive! " ++ strCat cls).data =
    "Today you were productive! ".data ++ (strCat cls).data from
      String.data_append _ _]
  rw [dropWhile_front, backTrim_strCat cls _ hne hd]
  apply String.ext
  simp [String.data_append]

/-- C8: the narrative summary appends one clause per non-zero counter in the
fixed order created, updated, tasks, meetings, each correctly pluralized
(singular for 1, plural otherwise), and returns the fixed no-activity message
exactly when both `notesCreated` and `tasksCompleted` are zero, regardless of
the other counters; in particular the activity (3, 0, 2, 0) produces
"Created 3 new notes." and "Completed 2 tasks." and no updated or meetings
clause. -/
theorem generateSummary_spec :
    (∀ a : Activity, generateSummary a = summarySpec a) ∧
    generateSummary ⟨3, 0, 2, 0⟩ =
      "Today you were productive! Created 3 new notes. Completed 2 tasks." := by
  constructor
  · intro a
    by_cases hz : a.notesCreated = 0 ∧ a.tasksCompleted = 0
    · rw [generateSummary, summarySpec, if_pos hz, if_pos hz]
    · rw [generateSummary, summarySpec, if_neg hz, if_neg hz]
      have hne : summaryClauses a ≠ [] := by
        by_cases h1 : 0 < a.notesCreated
        · simp [summaryClauses, h1]
        · have h3 : 0 < a.tasksCompleted := by omega
          simp [summaryClauses, h3]
      have hd : ∀ cl ∈ summaryClauses a, ∃ u, cl.data = u ++ ['.'] := by
        intro cl hcl
        have hone : ∀ (cond : Prop) (inst : Decidable cond) (x : String),
            cl ∈ (if cond then [x] else []) → cl = x := by
          intro cond inst x hx
          split at hx
          · simpa using hx
          · simp at hx
        simp only [summaryClauses, List.mem_append] at hcl
        rcases hcl with ((h | h) | h) | h
        · rw [hone _ _ _ h]
          exact ⟨_, by rw [clauseCreated, String.data_append]⟩
        · rw [hone _ _ _ h]
          exact ⟨_, by rw [clauseUpdated, String.data_append]⟩
        · rw [hone _ _ _ h]
          exact ⟨_, by rw [clauseTasks, String.data_append]⟩
        · rw [hone _ _ _ h]
          exact ⟨_, by rw [clauseMeetings, String.data_append]⟩
      have hb : ("Today you were productive! "
          ++ (if 0 < a.notesCreated then clauseCreated a.notesCreated ++ " " else "")
          ++ (if 0 < a.notesUpdated then clauseUpdated a.notesUpdated ++ " " else "")
          ++ (if 0 < a.tasksCompleted then clauseTasks a.tasksCompleted ++ " " else "")
          ++ (if 0 < a.meetingsRecorded then clauseMeetings a.meetingsRecorded ++ " "
              else ""))
          = "Today you were productive! " ++ strCat (summaryClauses a) := by
        by_cases h1 : 0 < a.notesCreated <;> by_cases h2 : 0 < a.notesUpdated <;>
          by_cases h3 : 0 < a.tasksCompleted <;> by_cases h4 : 0 < a.meetingsRecorded <;>
          simp [h1, h2, h3, h4, summaryClauses, strCat, String.append_assoc]
      rw [hb, jsTrimS_clauses (summaryClauses a) hne hd]
  · decide
